import Mathlib

/-!
Shallow embedding of the migration engine in `migrate.go` of
thankful-ai/migrate, together with proofs of the claimed properties.

Conventions:
* Go strings are Lean `String`s; Go `[]byte` contents are modelled through
  the UTF-8 byte sequence of the string (Go's `[]byte(s)` conversion).
* The datastore collaborator (`Store`) is not part of the repository's
  source; the engine's calls to it are modelled as an explicit list of
  emitted effects (`Eff`), and an interpreter `applyEff` gives those
  effects their datastore semantics where a claim needs it.
* Machine integers are `Nat` with explicit `% 2 ^ 32` / bounds where Go
  wraps (the MD5 core) and an explicit `2 ^ 64` bound where Go's
  `strconv.ParseUint(s, 10, 64)` overflows.
-/

namespace Migrate

/-! ## Bytes and MD5 (`computeChecksum`, crypto/md5 + fmt "%x")

The source hashes content with `crypto/md5` and compares the lowercase
hexadecimal rendering of digests.  The MD5 compression function is
implemented here over `Nat` bytes/words, following RFC 1321.
-/

/-- UTF-8 encoding of one code point, as Go produces for `[]byte(string)`. -/
def utf8Bytes (c : Nat) : List Nat :=
  if c < 0x80 then [c]
  else if c < 0x800 then
    [0xC0 ||| (c >>> 6), 0x80 ||| (c &&& 0x3F)]
  else if c < 0x10000 then
    [0xE0 ||| (c >>> 12), 0x80 ||| ((c >>> 6) &&& 0x3F), 0x80 ||| (c &&& 0x3F)]
  else
    [0xF0 ||| (c >>> 18), 0x80 ||| ((c >>> 12) &&& 0x3F),
     0x80 ||| ((c >>> 6) &&& 0x3F), 0x80 ||| (c &&& 0x3F)]

/-- The byte sequence of a Go string (`[]byte(s)`). -/
def strBytes (s : String) : List Nat :=
  s.data.flatMap (fun c => utf8Bytes c.toNat)

/-- MD5 round constants `K[i] = floor(2^32 * |sin(i+1)|)` (RFC 1321). -/
def md5K : List Nat :=
  [0xd76aa478, 0xe8c7b756, 0x242070db, 0xc1bdceee,
   0xf57c0faf, 0x4787c62a, 0xa8304613, 0xfd469501,
   0x698098d8, 0x8b44f7af, 0xffff5bb1, 0x895cd7be,
   0x6b901122, 0xfd987193, 0xa679438e, 0x49b40821,
   0xf61e2562, 0xc040b340, 0x265e5a51, 0xe9b6c7aa,
   0xd62f105d, 0x02441453, 0xd8a1e681, 0xe7d3fbc8,
   0x21e1cde6, 0xc33707d6, 0xf4d50d87, 0x455a14ed,
   0xa9e3e905, 0xfcefa3f8, 0x676f02d9, 0x8d2a4c8a,
   0xfffa3942, 0x8771f681, 0x6d9d6122, 0xfde5380c,
   0xa4beea44, 0x4bdecfa9, 0xf6bb4b60, 0xbebfbc70,
   0x289b7ec6, 0xeaa127fa, 0xd4ef3085, 0x04881d05,
   0xd9d4d039, 0xe6db99e5, 0x1fa27cf8, 0xc4ac5665,
   0xf4292244, 0x432aff97, 0xab9423a7, 0xfc93a039,
   0x655b59c3, 0x8f0ccc92, 0xffeff47d, 0x85845dd1,
   0x6fa87e4f, 0xfe2ce6e0, 0xa3014314, 0x4e0811a1,
   0xf7537e82, 0xbd3af235, 0x2ad7d2bb, 0xeb86d391]

/-- MD5 per-round left-rotation amounts (RFC 1321). -/
def md5Shifts : List Nat :=
  [7, 12, 17, 22, 7, 12, 17, 22, 7, 12, 17, 22, 7, 12, 17, 22,
   5, 9, 14, 20, 5, 9, 14, 20, 5, 9, 14, 20, 5, 9, 14, 20,
   4, 11, 16, 23, 4, 11, 16, 23, 4, 11, 16, 23, 4, 11, 16, 23,
   6, 10, 15, 21, 6, 10, 15, 21, 6, 10, 15, 21, 6, 10, 15, 21]

/-- Little-endian bytes of `n`, `count` of them. -/
def leBytes (n : Nat) : Nat → List Nat
  | 0 => []
  | k + 1 => (n % 256) :: leBytes (n / 256) k

/-- MD5 padding: a `0x80` byte, zeros to 56 mod 64, then the 64-bit
little-endian bit length. -/
def md5Pad (msg : List Nat) : List Nat :=
  msg ++ [0x80] ++ List.replicate ((119 - msg.length % 64) % 64) 0
      ++ leBytes (msg.length * 8) 8

/-- Split a byte sequence into 64-byte chunks (structural recursion on a
fuel bound so the kernel can evaluate it). -/
def chunks64Aux : Nat → List Nat → List (List Nat)
  | 0, _ => []
  | _, [] => []
  | fuel + 1, a :: l => ((a :: l).take 64) :: chunks64Aux fuel ((a :: l).drop 64)

/-- Split a byte sequence into 64-byte chunks. -/
def chunks64 (l : List Nat) : List (List Nat) :=
  chunks64Aux l.length l

/-- A 32-bit little-endian word from (up to) four bytes. -/
def leWord (bs : List Nat) : Nat :=
  bs.reverse.foldl (fun a b => a * 256 + b) 0

/-- Word `g` of a 64-byte block. -/
def blockWord (block : List Nat) (g : Nat) : Nat :=
  leWord ((block.drop (4 * g)).take 4)

/-- Left rotation of a 32-bit operand (inputs below `2 ^ 32`). -/
def leftrot32 (x n : Nat) : Nat :=
  ((x <<< n) % 2 ^ 32) ||| (x >>> (32 - n))

/-- The MD5 nonlinear function of round `i`. -/
def md5F (i b c d : Nat) : Nat :=
  if i < 16 then (b &&& c) ||| ((2 ^ 32 - 1 - b) &&& d)
  else if i < 32 then (d &&& b) ||| ((2 ^ 32 - 1 - d) &&& c)
  else if i < 48 then b ^^^ c ^^^ d
  else c ^^^ (b ||| (2 ^ 32 - 1 - d))

/-- The message-word index used in round `i`. -/
def md5G (i : Nat) : Nat :=
  if i < 16 then i
  else if i < 32 then (5 * i + 1) % 16
  else if i < 48 then (3 * i + 5) % 16
  else (7 * i) % 16

/-- One MD5 round on state `(a, b, c, d)`. -/
def md5Round (block : List Nat) (st : Nat × Nat × Nat × Nat) (i : Nat) :
    Nat × Nat × Nat × Nat :=
  match st with
  | (a, b, c, d) =>
    let f := (md5F i b c d + a + md5K.getD i 0 + blockWord block (md5G i)) % 2 ^ 32
    (d, (b + leftrot32 f (md5Shifts.getD i 0)) % 2 ^ 32, b, c)

/-- Process one 64-byte block. -/
def md5Block (st : Nat × Nat × Nat × Nat) (block : List Nat) :
    Nat × Nat × Nat × Nat :=
  match st, (List.range 64).foldl (md5Round block) st with
  | (a0, b0, c0, d0), (a, b, c, d) =>
    ((a0 + a) % 2 ^ 32, (b0 + b) % 2 ^ 32, (c0 + c) % 2 ^ 32, (d0 + d) % 2 ^ 32)

/-- MD5 initial state (RFC 1321). -/
def md5InitState : Nat × Nat × Nat × Nat :=
  (0x67452301, 0xefcdab89, 0x98badcfe, 0x10325476)

/-- The 16-byte MD5 digest of a byte sequence. -/
def md5Bytes (msg : List Nat) : List Nat :=
  match (chunks64 (md5Pad msg)).foldl md5Block md5InitState with
  | (a, b, c, d) => leBytes a 4 ++ leBytes b 4 ++ leBytes c 4 ++ leBytes d 4

/-- One lowercase hexadecimal digit. -/
def hexDigit (n : Nat) : Char :=
  if n < 10 then Char.ofNat (48 + n) else Char.ofNat (87 + n)

/-- Two lowercase hexadecimal digits of one byte (Go's `fmt "%x"`). -/
def byteHex (b : Nat) : List Char :=
  [hexDigit (b / 16), hexDigit (b % 16)]

/-- The lowercase hexadecimal MD5 digest of a string, exactly what the
source's `computeChecksum` returns as its second component. -/
def md5Hex (s : String) : String :=
  String.mk ((md5Bytes (strBytes s)).flatMap byteHex)

/-- Model of `computeChecksum` (migrate.go): reads all bytes, returns the content
and the hexadecimal MD5 digest.  The reader in the source never fails on
an in-memory string, so the error path is vacuous here. -/
def computeChecksum (s : String) : String × String :=
  (s, md5Hex s)

/-! ## Go string primitives

The Go string functions the engine uses (`strings.Split`, `Contains`,
`ToLower`, `TrimSpace`, `HasPrefix`) are modelled over the character list
of the string, so that every definition evaluates by kernel reduction. -/

instance {ε α : Type} [DecidableEq ε] [DecidableEq α] :
    DecidableEq (Except ε α) := fun a b =>
  match a, b with
  | .ok x, .ok y =>
    if h : x = y then .isTrue (by rw [h]) else .isFalse (by simp [h])
  | .error x, .error y =>
    if h : x = y then .isTrue (by rw [h]) else .isFalse (by simp [h])
  | .ok _, .error _ => .isFalse (by simp)
  | .error _, .ok _ => .isFalse (by simp)

/-- Does the first list start with the second? -/
def listStartsWith : List Char → List Char → Bool
  | _, [] => true
  | [], _ :: _ => false
  | a :: as, b :: bs => a == b && listStartsWith as bs

/-- Does the first list contain the second as a contiguous run? -/
def listContains : List Char → List Char → Bool
  | [], pat => pat.isEmpty
  | a :: rest, pat => listStartsWith (a :: rest) pat || listContains rest pat

/-- Go `strings.HasPrefix s pat`. -/
def strStartsWith (s pat : String) : Bool :=
  listStartsWith s.data pat.data

/-- Go `strings.Contains s pat`. -/
def containsSub (s pat : String) : Bool :=
  listContains s.data pat.data

/-- ASCII lower-casing of one character (the marker phrases the engine
searches for are ASCII, where Go's Unicode `ToLower` agrees). -/
def charLower (c : Char) : Char :=
  if c.toNat ≥ 65 ∧ c.toNat ≤ 90 then Char.ofNat (c.toNat + 32) else c

/-- Go `strings.ToLower`. -/
def strToLower (s : String) : String :=
  String.mk (s.data.map charLower)

/-- Go `strings.TrimSpace` (the original additionally trims a few rare Unicode spaces;
migration files use the ASCII whitespace covered here). -/
def trimSpace (s : String) : String :=
  String.mk
    (((s.data.dropWhile Char.isWhitespace).reverse.dropWhile
        Char.isWhitespace).reverse)

/-- Splitting on the terminator, accumulating the current fragment in reverse. -/
def splitSemiAux : List Char → List Char → List String
  | [], acc => [String.mk acc.reverse]
  | c :: cs, acc =>
    if c == ';' then String.mk acc.reverse :: splitSemiAux cs []
    else splitSemiAux cs (c :: acc)

/-- Go `strings.Split` on the terminator (line 199). -/
def splitSemi (s : String) : List String :=
  splitSemiAux s.data []

/-! ## Statement splitting (`migrateFile`, migrate.go lines 198–239) -/

/-- Does a fragment's lower-cased text contain `"returns trigger as"`? -/
def hasTriggerMarker (c : String) : Bool :=
  containsSub (strToLower c) "returns trigger as"

/-- Does a fragment's lower-cased text contain `"plpgsql"`? -/
def hasPlpgsql (c : String) : Bool :=
  containsSub (strToLower c) "plpgsql"

inductive SplitError where
  | unterminated
  deriving DecidableEq

/-- The source statement `newCmds[len(newCmds)-1] += c` (the accumulating list is never empty
when the source reaches this statement). -/
def appendLast (l : List String) (c : String) : List String :=
  l.dropLast ++ [(l.getLast?.getD "") ++ c]

/-- The fragment-joining loop of `migrateFile` (lines 203–225): fragments of
a trigger-returning function are re-joined, restoring the terminators the
split removed, until a fragment containing the procedural-language marker
closes the block; reaching the end of input while still accumulating is the
source's "unexpected exit, missing plpgsql" error. -/
def joinCmds (newCmds : List String) (keepGoing : Bool) :
    List String → Except SplitError (List String)
  | [] => if keepGoing then .error .unterminated else .ok newCmds
  | c :: cs =>
    if hasTriggerMarker c then joinCmds (newCmds ++ [c ++ ";"]) true cs
    else if keepGoing then
      if hasPlpgsql c then joinCmds (appendLast newCmds c) false cs
      else joinCmds (appendLast newCmds (c ++ ";")) true cs
    else joinCmds (newCmds ++ [c]) false cs

/-- The candidate filter of `migrateFile` (lines 228–234): trim whitespace,
keep candidates that are non-empty and do not start with `--`. -/
def filterCmds (cmds : List String) : List String :=
  (cmds.map trimSpace).filter (fun c => 0 < c.length && !(strStartsWith c "--"))

inductive MigError where
  | unterminatedBlock
  | noStatements (file : String)
  | tooManyCheckpoints (numCkpts numCmds : Nat)
  | checksumMismatch (file : String) (idx : Nat)
  | execFailed (file : String) (cmd : String)
  deriving DecidableEq

/-- The splitting pipeline of `migrateFile` through line 239: split the file
content on `";"`, re-join trigger-function bodies, filter candidates, and
fail when no statement remains. -/
def statements (fname content : String) : Except MigError (List String) :=
  match joinCmds [] false (splitSemi content) with
  | .error _ => .error .unterminatedBlock
  | .ok cmds =>
    let filtered := filterCmds cmds
    if filtered.isEmpty then .error (.noStatements fname) else .ok filtered

/-! ## Checkpointed execution (`migrateFile`, lines 241–315)

The datastore collaborator is outside the repository; the engine's writes
to it are recorded as a list of effects in the order the source issues
them.  `GetMetaCheckpoints` is a read and appears as the `checkpoints`
argument (the stored per-statement checksums, ordered by index); `Exec`
outcomes are supplied by the `execOk` oracle. -/

inductive Eff where
  | exec (cmd : String)
  | insertMetaCheckpoint (file cmd checksum : String) (idx : Nat)
  | deleteMetaCheckpoints
  | insertMigration (file content checksum : String)
  deriving DecidableEq

/-- The per-statement loop of `migrateFile` (lines 256–298): statements at
an index covered by a checkpoint are re-hashed and compared, never
executed; the rest are executed and then checkpointed. -/
def execLoop (fname : String) (checkpoints : List String)
    (execOk : String → Bool) :
    List String → Nat → List Eff × Except MigError Unit
  | [], _ => ([], .ok ())
  | cmd :: rest, i =>
    if h : i < checkpoints.length then
      if (computeChecksum cmd).2 = checkpoints.get ⟨i, h⟩ then
        execLoop fname checkpoints execOk rest (i + 1)
      else ([], .error (.checksumMismatch fname i))
    else
      if execOk cmd then
        let step := execLoop fname checkpoints execOk rest (i + 1)
        (.exec cmd :: .insertMetaCheckpoint fname cmd (computeChecksum cmd).2 i :: step.1,
         step.2)
      else ([.exec cmd], .error (.execFailed fname cmd))

/-- Model of `migrateFile` (lines 192–315) for a file whose content was read as
`content`: splitting, the shrunk-file guard, the checkpointed loop, and on
completion the checkpoint deletion and history insert. -/
def migrateFile (fname content : String) (checkpoints : List String)
    (execOk : String → Bool) : List Eff × Except MigError Unit :=
  match statements fname content with
  | .error e => ([], .error e)
  | .ok filteredCmds =>
    if checkpoints.length ≥ filteredCmds.length then
      ([], .error (.tooManyCheckpoints checkpoints.length filteredCmds.length))
    else
      match execLoop fname checkpoints execOk filteredCmds 0 with
      | (effs, .error e) => (effs, .error e)
      | (effs, .ok _) =>
        (effs ++ [.deleteMetaCheckpoints,
                  .insertMigration fname content (computeChecksum content).2],
         .ok ())

/-- The durable datastore state the effects act on: the metacheckpoints
table (file, cmd, checksum, index) and the migrations table
(filename, content, checksum). -/
structure Store where
  checkpoints : List (String × String × String × Nat)
  migrations : List (String × String × String)
  deriving DecidableEq

/-- Modelled from the spec: the `Store` implementation is not under `src/`
(only its call sites are).  The spec's datastore contract lists
`insertCheckpoint(fileName, statementText, checksum, index)`,
`deleteCheckpoints` and `insertHistory(name, content, checksum)`; the
engine's delete call (`m.db.DeleteMetaCheckpoints()`, migrate.go line 302)
passes no filename, so no implementation of it can restrict the deletion
to the file being migrated — it clears the checkpoint table. -/
def applyEff (st : Store) : Eff → Store
  | .exec _ => st
  | .insertMetaCheckpoint f c ck i =>
    { st with checkpoints := st.checkpoints ++ [(f, c, ck, i)] }
  | .deleteMetaCheckpoints => { st with checkpoints := [] }
  | .insertMigration f c ck =>
    { st with migrations := st.migrations ++ [(f, c, ck)] }

/-- Run a list of effects against a store state. -/
def runEffs (st : Store) (effs : List Eff) : Store :=
  effs.foldl applyEff st

/-! ## History validation (`validHistory` and `checkHash`, lines 153–190) -/

/-- The `Migration` struct (lines 38–43). -/
structure Migration where
  Filename : String
  Checksum : String
  Content : String
  fullpath : String
  deriving DecidableEq

inductive HistError where
  | missingMigrations
  | mustAppend (fileAt migAt : String)
  | checksumMismatch (file : String)
  deriving DecidableEq

/-- Model of `checkHash` (lines 174–190): re-read the file at the migration's
resolved path and compare digests.  `readFile` is the file system. -/
def checkHash (readFile : String → String) (mg : Migration) :
    Except HistError Unit :=
  if (computeChecksum (readFile mg.fullpath)).2 ≠ mg.Checksum then
    .error (.checksumMismatch mg.Filename)
  else .ok ()

/-- The index loop of `validHistory` (lines 160–170), over the pairs
`(files[i].Name, migrations[i])` for `i` from the skip offset to the end of
history. -/
def validHistoryLoop (readFile : String → String) :
    List (String × Migration) → Except HistError Unit
  | [] => .ok ()
  | (fiName, mg) :: rest =>
    if mg.Filename ≠ fiName then .error (.mustAppend fiName mg.Filename)
    else
      match checkHash readFile mg with
      | .error e => .error e
      | .ok _ => validHistoryLoop readFile rest

/-- Model of `validHistory` (lines 153–172): `files` are the sorted catalog names,
`migrations` the loaded history, `idx` the skip offset (`m.idx`, 0 unless a
skip ran).  The zip of the dropped lists visits exactly the indices
`idx ≤ i < migrations.length` of the source loop (the length guard ensures
`files[i]` exists for each of them). -/
def validHistory (readFile : String → String) (files : List String)
    (migrations : List Migration) (idx : Nat) : Except HistError Unit :=
  if files.length < migrations.length then .error .missingMigrations
  else validHistoryLoop readFile ((files.drop idx).zip (migrations.drop idx))

/-! ## Catalog ordering (`sortFiles`, lines 445–474) -/

inductive SortError where
  | parseFailure (file : String)
  | duplicateSeq (n : Nat)
  deriving DecidableEq

/-- The match `regexNum.FindString name` for `regexNum = ^\d+`: the longest leading
run of ASCII digits. -/
def leadingDigits (s : String) : String :=
  String.mk (s.data.takeWhile Char.isDigit)

/-- Go `strconv.ParseUint(s, 10, 64)` on the leading digits: fails on an empty
match and on overflow past `2 ^ 64 - 1`. -/
def parseSeq (name : String) : Option Nat :=
  let ds := leadingDigits name
  if ds.isEmpty then none
  else
    let n := ds.data.foldl (fun acc c => acc * 10 + (c.toNat - 48)) 0
    if n < 2 ^ 64 then some n else none

/-- The comparator of `sortFiles` (lines 449–472).  Both parse failures are
attributed to the first compared file (`files[i].Info.Name()` appears in
both branches of the source); equal sequence numbers raise the duplicate
error with the shared number. -/
def lessFile (x y : String) : Except SortError Bool :=
  match parseSeq x with
  | none => .error (.parseFailure x)
  | some n1 =>
    match parseSeq y with
    | none => .error (.parseFailure x)
    | some n2 =>
      if n1 = n2 then .error (.duplicateSeq n1) else .ok (decide (n1 < n2))

/-- One insertion of `sort.Slice`'s insertion sort: the already-placed
prefix is held in reverse order and the new element scans down from the
top, exactly the `Less(j, j-1)` comparisons the source makes; the first
comparator error wins, like `nameErr`. -/
def insertFile (x : String) : List String → Except SortError (List String)
  | [] => .ok [x]
  | y :: ys =>
    match lessFile x y with
    | .error e => .error e
    | .ok true =>
      match insertFile x ys with
      | .error e => .error e
      | .ok r => .ok (y :: r)
    | .ok false => .ok (x :: y :: ys)

/-- The outer insertion-sort loop over the remaining elements. -/
def sortLoop : List String → List String → Except SortError (List String)
  | rev, [] => .ok rev.reverse
  | rev, x :: xs =>
    match insertFile x rev with
    | .error e => .error e
    | .ok rev2 => sortLoop rev2 xs

/-- Model of `sortFiles` (lines 447–474) on the file names: Go's `sort.Slice` runs
insertion sort for the slice lengths exercised here (fewer than 12
elements); on an error the source's caller discards the slice, so only the
error/success outcome and the sorted order on success are observable. -/
def sortFiles : List String → Except SortError (List String)
  | [] => .ok []
  | x :: xs => sortLoop [x] xs

/-! ## Directory scanning (`readDir` / `getOverrideSet`, lines 367–443) -/

structure DirEnt where
  name : String
  isDir : Bool
  deriving DecidableEq

/-- A migration directory: its entries and the listing of each immediate
subdirectory, keyed by name. -/
structure Dir where
  entries : List DirEnt
  sub : String → List DirEnt

inductive DirError where
  | noSqlFiles
  | readSubDir (sub : String) (e : DirError)
  | getOverrideSetFailed (e : DirError)
  deriving DecidableEq

/-- Go `filepath.Ext`: the suffix starting at the final dot, `""` if none. -/
def filepathExt (name : String) : String :=
  let after := name.data.reverse.takeWhile (fun c => c ≠ '.')
  if after.length = name.data.length then "" else String.mk ('.' :: after.reverse)

/-- The eligibility filter of `readDir` (lines 386–398): not a directory,
not hidden, extension `.sql`. -/
def eligible (e : DirEnt) : Bool :=
  !e.isDir && !(strStartsWith e.name ".") && (filepathExt e.name == ".sql")

/-- Model of `readDir` as re-invoked inside an override subdirectory with the empty
dialect tag (line 432).  Its own `getOverrideSet` call looks for a
subdirectory named after the empty tag; the OS never reports a directory
entry with an empty name, so that set is empty and only the eligibility
filter and the emptiness check remain. -/
def readDirFlat (entries : List DirEnt) : Except DirError (List String) :=
  let files := (entries.filter eligible).map DirEnt.name
  if files.isEmpty then .error .noSqlFiles else .ok files

/-- The loop of `getOverrideSet` (lines 424–437): every directory entry
named after the dialect replaces the override list with its `readDir`
result; an inner failure aborts, wrapped with the subdirectory name. -/
def overrideLoop (d : Dir) (dbt : String) :
    List DirEnt → List String → Except DirError (List String)
  | [], acc => .ok acc
  | e :: es, acc =>
    if e.isDir && (e.name == dbt) then
      match readDirFlat (d.sub e.name) with
      | .error err => .error (.readSubDir e.name err)
      | .ok files => overrideLoop d dbt es files
    else overrideLoop d dbt es acc

/-- Model of `getOverrideSet` (lines 418–443), as the list of override filenames. -/
def getOverrideSet (d : Dir) (dbt : String) : Except DirError (List String) :=
  overrideLoop d dbt d.entries []

/-- Model of `readDir` (lines 368–416) on the top-level directory.  The override
application replaces matching entries' paths but leaves the returned names
unchanged, so the model returns the eligible top-level names. -/
def readDir (d : Dir) (dbt : String) : Except DirError (List String) :=
  let files := (d.entries.filter eligible).map DirEnt.name
  if files.isEmpty then .error .noSqlFiles
  else
    match getOverrideSet d dbt with
    | .error e => .error (.getOverrideSetFailed e)
    | .ok _ => .ok files

/-! ## Schema version bootstrap (`New`, lines 89–101, and
`migrationsFromFiles`, lines 476–491) -/

/-- The compiled `version` (line 20). -/
def toolVersion : Nat := 1

/-- A discovered migration file: name, content and resolved full path. -/
structure MFile where
  name : String
  content : String
  fullpath : String
  deriving DecidableEq

/-- Model of `migrationsFromFiles` (lines 476–491).  The `Checksum` field of the Go
struct literal is never assigned and keeps the zero value `""`. -/
def migrationsFromFiles (files : List MFile) : List Migration :=
  files.map fun f =>
    { Filename := f.name, Checksum := "", Content := f.content,
      fullpath := f.fullpath }

inductive VersionEff where
  | upgradeToV1 (seed : List Migration)
  deriving DecidableEq

inductive VersionError where
  | mustUpgradeTool
  deriving DecidableEq

/-- The version reconciliation step of `New` (lines 89–101), given the
persisted version marker and the catalog files: a marker above the
compiled version is fatal; a marker below 1 synthesizes seed history
records from the catalog, passes them to `UpgradeToV1` and proceeds with
version 1. -/
def versionStep (curVersion : Int) (files : List MFile) :
    Except VersionError (List VersionEff × Int) :=
  if curVersion > (toolVersion : Int) then .error .mustUpgradeTool
  else if curVersion < 1 then
    .ok ([.upgradeToV1 (migrationsFromFiles files)], 1)
  else .ok ([], curVersion)

/-! ## Executor lemmas shared by the checkpointing claims -/

/-- The effect trail of executing statements from index `i` onward with no
remaining checkpoint: each statement is executed and then checkpointed
with its checksum and index, in order. -/
def execEffectsFrom (fname : String) (i : Nat) : List String → List Eff
  | [] => []
  | cmd :: rest =>
    .exec cmd :: .insertMetaCheckpoint fname cmd (computeChecksum cmd).2 i ::
      execEffectsFrom fname (i + 1) rest

/-- Is an effect a history insert? -/
def isInsertMigrationEff : Eff → Bool
  | .insertMigration _ _ _ => true
  | _ => false

/-- The text reconstructed from consecutive split fragments: the
terminators the split removed are restored between fragments, so this is
the original contiguous slice of the file. -/
def rejoin : List String → String
  | [] => ""
  | [m] => m
  | m :: m2 :: ms => m ++ ";" ++ rejoin (m2 :: ms)

/-- The text accumulated by the joining loop while inside a block:
each body fragment is appended with its terminator restored. -/
def midsAcc (x : String) : List String → String
  | [] => x
  | m :: ms => midsAcc (x ++ m ++ ";") ms

/-- The sequence number used for ordering (only consulted where a parse
success is known). -/
def seqKey (s : String) : Nat :=
  (parseSeq s).getD 0

/-- Every name in the list parses. -/
def allParse (l : List String) : Prop :=
  ∀ f ∈ l, (parseSeq f).isSome

/-- Strictly descending keys, the invariant of the reversed prefix. -/
def gtKey (a b : String) : Prop :=
  seqKey b < seqKey a

/-- Past the checkpointed region, `execLoop` executes and checkpoints
every remaining statement in order. -/
theorem execLoop_past_checkpoints (fname : String) (checkpoints : List String)
    (execOk : String → Bool) :
    ∀ (S : List String) (i : Nat), checkpoints.length ≤ i →
      (∀ c ∈ S, execOk c = true) →
      execLoop fname checkpoints execOk S i =
        (execEffectsFrom fname i S, .ok ()) := by
  intro S
  induction S with
  | nil => intro i _ _; rfl
  | cons c rest ih =>
    intro i h1 h2
    unfold execLoop
    rw [dif_neg (by omega), if_pos (h2 c (by simp))]
    simp only [ih (i + 1) (by omega) (fun x hx => h2 x (by simp [hx]))]
    rfl

/-- Inside the checkpointed region, matching checksums make `execLoop`
verify without executing, and then run the remaining statements. -/
theorem execLoop_verifiedRegion (fname : String) (checkpoints : List String)
    (execOk : String → Bool) :
    ∀ (S : List String) (i : Nat), i ≤ checkpoints.length →
      (∀ j, i + j < checkpoints.length → j < S.length →
        (computeChecksum (S.getD j "")).2 = checkpoints.getD (i + j) "") →
      (∀ c ∈ S, execOk c = true) →
      execLoop fname checkpoints execOk S i =
        (execEffectsFrom fname checkpoints.length
          (S.drop (checkpoints.length - i)), .ok ()) := by
  intro S
  induction S with
  | nil => intro i _ _ _; simp [execLoop, execEffectsFrom]
  | cons c rest ih =>
    intro i hik hver hexec
    by_cases hi : i < checkpoints.length
    · unfold execLoop
      have hc : (computeChecksum c).2 = checkpoints.get ⟨i, hi⟩ := by
        have := hver 0 (by omega) (by simp)
        simpa [List.getD_eq_getElem?_getD, List.getElem?_eq_getElem hi] using this
      rw [dif_pos hi, if_pos hc]
      rw [ih (i + 1) (by omega) ?_ (fun x hx => hexec x (by simp [hx]))]
      · have hd : checkpoints.length - i = (checkpoints.length - (i + 1)) + 1 := by
          omega
        rw [hd]
        simp
      · intro j hj hjS
        have := hver (j + 1) (by omega) (by simpa using hjS)
        simpa [Nat.add_comm, Nat.add_assoc, Nat.add_left_comm] using this
    · have hieq : i = checkpoints.length := by omega
      rw [execLoop_past_checkpoints fname checkpoints execOk (c :: rest) i
        (by omega) hexec, hieq]
      simp

/-- A checksum mismatch inside the checkpointed region halts `execLoop`
with the checksum-mismatch error at the first mismatching index, before
any effect is emitted. -/
theorem execLoop_mismatch (fname : String) (checkpoints : List String)
    (execOk : String → Bool) :
    ∀ (S : List String) (i : Nat),
      (∃ j, i + j < checkpoints.length ∧ j < S.length ∧
        (computeChecksum (S.getD j "")).2 ≠ checkpoints.getD (i + j) "") →
      ∃ m, i ≤ m ∧ m < checkpoints.length ∧
        (computeChecksum (S.getD (m - i) "")).2 ≠ checkpoints.getD m "" ∧
        execLoop fname checkpoints execOk S i =
          ([], .error (.checksumMismatch fname m)) := by
  intro S
  induction S with
  | nil =>
    intro i h
    obtain ⟨j, _, hj, _⟩ := h
    simp at hj
  | cons c rest ih =>
    intro i h
    obtain ⟨j, hjk, hjS, hne⟩ := h
    have hik : i < checkpoints.length := by omega
    by_cases hc : (computeChecksum c).2 = checkpoints.get ⟨i, hik⟩
    · have hj0 : j ≠ 0 := by
        intro h0
        subst h0
        apply hne
        simpa [List.getD_eq_getElem?_getD, List.getElem?_eq_getElem hik] using hc
      obtain ⟨j', rfl⟩ : ∃ j', j = j' + 1 := ⟨j - 1, by omega⟩
      obtain ⟨m, him, hmk, hmne, heq⟩ := ih (i + 1)
        ⟨j', by omega, by simpa using hjS, by
          have := hne
          simpa [Nat.add_comm, Nat.add_assoc, Nat.add_left_comm] using this⟩
      refine ⟨m, by omega, hmk, ?_, ?_⟩
      · have hd : m - i = (m - (i + 1)) + 1 := by omega
        rw [hd]
        simpa using hmne
      · unfold execLoop
        rw [dif_pos hik, if_pos hc]
        exact heq
    · refine ⟨i, le_refl i, hik, ?_, ?_⟩
      · intro hcon
        apply hc
        simpa [List.getD_eq_getElem?_getD, List.getElem?_eq_getElem hik]
          using hcon
      · unfold execLoop
        rw [dif_pos hik, if_neg hc]

/-- A resumed run with a verified checkpoint region and successful
executions: the full effect trail of `migrateFile`. -/
theorem migrateFile_success (fname content : String)
    (checkpoints : List String) (execOk : String → Bool) (S : List String)
    (hS : statements fname content = .ok S)
    (hk : checkpoints.length < S.length)
    (hver : ∀ j, j < checkpoints.length →
      (computeChecksum (S.getD j "")).2 = checkpoints.getD j "")
    (hexec : ∀ c ∈ S, execOk c = true) :
    migrateFile fname content checkpoints execOk =
      (execEffectsFrom fname checkpoints.length
          (S.drop checkpoints.length) ++
        [.deleteMetaCheckpoints,
         .insertMigration fname content (computeChecksum content).2],
       .ok ()) := by
  have hred := execLoop_verifiedRegion fname checkpoints execOk S 0 (by omega)
    (fun j hj _ => by simpa using hver j (by omega)) hexec
  have hge : ¬ checkpoints.length ≥ S.length := by omega
  unfold migrateFile
  rw [hS]
  simp [hred, hge]

/-- A checksum mismatch under an existing checkpoint fails the whole
`migrateFile` run with the mismatch error, before any effect. -/
theorem migrateFile_mismatch (fname content : String)
    (checkpoints : List String) (execOk : String → Bool) (S : List String)
    (hS : statements fname content = .ok S)
    (hk : checkpoints.length < S.length)
    (hbad : ∃ j, j < checkpoints.length ∧
      (computeChecksum (S.getD j "")).2 ≠ checkpoints.getD j "") :
    ∃ m, m < checkpoints.length ∧
      (computeChecksum (S.getD m "")).2 ≠ checkpoints.getD m "" ∧
      migrateFile fname content checkpoints execOk =
        ([], .error (.checksumMismatch fname m)) := by
  obtain ⟨j, hjk, hne⟩ := hbad
  obtain ⟨m, _, hmk, hmne, heq⟩ := execLoop_mismatch fname checkpoints execOk
    S 0 ⟨j, by omega, by omega, by simpa using hne⟩
  refine ⟨m, hmk, by simpa using hmne, ?_⟩
  have hge : ¬ checkpoints.length ≥ S.length := by omega
  unfold migrateFile
  rw [hS]
  simp [heq, hge]

/-- The execute-and-checkpoint trail contains no history insert. -/
theorem execEffectsFrom_no_insertMigration (fname : String) :
    ∀ (S : List String) (i : Nat),
      (execEffectsFrom fname i S).countP isInsertMigrationEff = 0 := by
  intro S
  induction S with
  | nil => intro i; rfl
  | cons c rest ih =>
    intro i
    simp [execEffectsFrom, List.countP_cons, isInsertMigrationEff, ih]

/-- The execute-and-checkpoint trail leaves the migrations table alone. -/
theorem runEffs_execEffects_migrations (fname : String) :
    ∀ (S : List String) (i : Nat) (st : Store),
      (runEffs st (execEffectsFrom fname i S)).migrations = st.migrations := by
  intro S
  induction S with
  | nil => intro i st; rfl
  | cons c rest ih =>
    intro i st
    show (runEffs
        (applyEff (applyEff st (.exec c))
          (.insertMetaCheckpoint fname c (computeChecksum c).2 i))
        (execEffectsFrom fname (i + 1) rest)).migrations = _
    rw [ih (i + 1)]
    rfl

/-! ## C1: resumption verifies the checkpointed prefix, executes the rest -/

/-- C1 (confirmed): for a file whose filtered statement sequence has `n`
statements and `k < n` loaded checkpoints, each statement at index
`i < k` is verified by recomputing its checksum against the stored
checkpoint checksum without being executed, and exactly the statements at
indices `k..n-1` are executed then checkpointed, in order (the effect
trail is precisely `execEffectsFrom` at `k`, followed by the completion
effects); and whenever some checkpointed statement's recomputed checksum
differs from the stored one, the run fails with the checksum-mismatch
error naming the file and the first mismatching statement index, with an
empty effect trail — before executing any further statement. -/
theorem checkpointedResume_spec :
    (∀ (fname content : String) (checkpoints : List String)
        (execOk : String → Bool) (S : List String),
        statements fname content = .ok S →
        checkpoints.length < S.length →
        (∀ j, j < checkpoints.length →
          (computeChecksum (S.getD j "")).2 = checkpoints.getD j "") →
        (∀ c ∈ S, execOk c = true) →
        migrateFile fname content checkpoints execOk =
          (execEffectsFrom fname checkpoints.length
              (S.drop checkpoints.length) ++
            [.deleteMetaCheckpoints,
             .insertMigration fname content (computeChecksum content).2],
           .ok ())) ∧
    (∀ (fname content : String) (checkpoints : List String)
        (execOk : String → Bool) (S : List String),
        statements fname content = .ok S →
        checkpoints.length < S.length →
        (∃ j, j < checkpoints.length ∧
          (computeChecksum (S.getD j "")).2 ≠ checkpoints.getD j "") →
        ∃ m, m < checkpoints.length ∧
          (computeChecksum (S.getD m "")).2 ≠ checkpoints.getD m "" ∧
          migrateFile fname content checkpoints execOk =
            ([], .error (.checksumMismatch fname m))) :=
  ⟨migrateFile_success, migrateFile_mismatch⟩

/-- Witness for C1: a two-statement file resumed after one checkpoint
(only the second statement executes), and the same file with a corrupted
stored checkpoint (mismatch at index 0, nothing executes). -/
theorem checkpointedResume_spec_witness :
    migrateFile "f.sql" "select 1;\nselect 2;\n"
        [(computeChecksum "select 1").2] (fun _ => true) =
      (execEffectsFrom "f.sql" 1 ["select 2"] ++
        [.deleteMetaCheckpoints,
         .insertMigration "f.sql" "select 1;\nselect 2;\n"
           (computeChecksum "select 1;\nselect 2;\n").2],
       .ok ()) ∧
    (∃ m, m < 1 ∧
      (computeChecksum (["select 1", "select 2"].getD m "")).2 ≠
        ["bad"].getD m "" ∧
      migrateFile "f.sql" "select 1;\nselect 2;\n" ["bad"] (fun _ => true) =
        ([], .error (.checksumMismatch "f.sql" m))) :=
  ⟨by
    have h := checkpointedResume_spec.1 "f.sql" "select 1;\nselect 2;\n"
      [(computeChecksum "select 1").2] (fun _ => true)
      ["select 1", "select 2"] rfl (by decide)
      (fun j hj => by
        have hj0 : j = 0 := by simpa using hj
        subst hj0
        rfl)
      (fun c _ => rfl)
    simpa using h,
   by
    have h := checkpointedResume_spec.2 "f.sql" "select 1;\nselect 2;\n"
      ["bad"] (fun _ => true) ["select 1", "select 2"] rfl (by decide)
      ⟨0, by decide, by decide⟩
    simpa using h⟩

/-! ## C8: completion deletes the whole checkpoint table, inserts history -/

/-- C8 counterexample: the claim states the checkpoint deletion on
completion is scoped to the migrated file, leaving checkpoints of any
other file unchanged.  The engine's `DeleteMetaCheckpoints()` call passes
no filename; running the effects of a successful migration of `f.sql`
against a store holding a checkpoint row for `other.sql` leaves the
checkpoint table empty — `other.sql`'s checkpoint is deleted too. -/
theorem checkpointScope_counterexample :
    (migrateFile "f.sql" "select 1;\n" [] (fun _ => true)).2 = .ok () ∧
    (runEffs (Store.mk [("other.sql", "select 2", "ck", 0)] [])
        (migrateFile "f.sql" "select 1;\n" [] (fun _ => true)).1).checkpoints =
      [] :=
  ⟨by decide, by decide⟩

/-- C8 (corrected): when the last statement of a file executes
successfully, the engine issues the checkpoint deletion followed by
exactly one history insert for the file carrying the whole-file checksum
computed over the bytes read at the start of the run; the deletion is not
scoped to the file (the call passes no filename), so against any prior
datastore state the run leaves the checkpoint table empty — removing the
file's checkpoints but also any other file's — and appends exactly the
one history record. -/
theorem completionEffects_spec :
    ∀ (fname content : String) (checkpoints : List String)
      (execOk : String → Bool) (S : List String) (st : Store),
      statements fname content = .ok S →
      checkpoints.length < S.length →
      (∀ j, j < checkpoints.length →
        (computeChecksum (S.getD j "")).2 = checkpoints.getD j "") →
      (∀ c ∈ S, execOk c = true) →
      (migrateFile fname content checkpoints execOk).2 = .ok () ∧
      (migrateFile fname content checkpoints execOk).1.countP
          isInsertMigrationEff = 1 ∧
      (migrateFile fname content checkpoints execOk).1.getLast? =
        some (.insertMigration fname content (computeChecksum content).2) ∧
      runEffs st (migrateFile fname content checkpoints execOk).1 =
        Store.mk []
          (st.migrations ++ [(fname, content, (computeChecksum content).2)]) := by
  intro fname content checkpoints execOk S st hS hk hver hexec
  rw [migrateFile_success fname content checkpoints execOk S hS hk hver hexec]
  refine ⟨rfl, ?_, ?_, ?_⟩
  · simp [List.countP_append, execEffectsFrom_no_insertMigration,
      List.countP_cons, isInsertMigrationEff]
  · have hsplit :
        execEffectsFrom fname checkpoints.length (S.drop checkpoints.length) ++
          [Eff.deleteMetaCheckpoints,
           Eff.insertMigration fname content (computeChecksum content).2] =
        (execEffectsFrom fname checkpoints.length (S.drop checkpoints.length) ++
          [Eff.deleteMetaCheckpoints]) ++
          [Eff.insertMigration fname content (computeChecksum content).2] := by
      simp
    rw [hsplit, List.getLast?_concat]
  · unfold runEffs
    rw [List.foldl_append]
    have hm := runEffs_execEffects_migrations fname
      (S.drop checkpoints.length) checkpoints.length st
    unfold runEffs at hm
    simp [applyEff, hm]

/-- Witness for C8's theorem: a one-statement file run against a store
holding another file's checkpoint and an existing history row. -/
theorem completionEffects_spec_witness :
    (migrateFile "f.sql" "select 1;\n" [] (fun _ => true)).2 = .ok () ∧
    (migrateFile "f.sql" "select 1;\n" [] (fun _ => true)).1.countP
        isInsertMigrationEff = 1 ∧
    (migrateFile "f.sql" "select 1;\n" [] (fun _ => true)).1.getLast? =
      some (.insertMigration "f.sql" "select 1;\n"
        (computeChecksum "select 1;\n").2) ∧
    runEffs
        (Store.mk [("other.sql", "select 2", "ck", 0)] [("old.sql", "c", "k")])
        (migrateFile "f.sql" "select 1;\n" [] (fun _ => true)).1 =
      Store.mk []
        ((Store.mk [("other.sql", "select 2", "ck", 0)]
            [("old.sql", "c", "k")]).migrations ++
          [("f.sql", "select 1;\n", (computeChecksum "select 1;\n").2)]) :=
  completionEffects_spec "f.sql" "select 1;\n" [] (fun _ => true) ["select 1"]
    (Store.mk [("other.sql", "select 2", "ck", 0)] [("old.sql", "c", "k")])
    rfl (by decide) (fun j hj => by simp at hj) (fun c _ => rfl)

/-! ## C3: history validation -/

/-- A filename divergence among the visited pairs fails the loop. -/
theorem validHistoryLoop_diverged (readFile : String → String) :
    ∀ (z : List (String × Migration)),
      (∃ p ∈ z, p.2.Filename ≠ p.1) →
      ∃ e, validHistoryLoop readFile z = .error e := by
  intro z
  induction z with
  | nil => intro h; simp at h
  | cons p rest ih =>
    intro h
    obtain ⟨f, mg⟩ := p
    by_cases hf : mg.Filename ≠ f
    · exact ⟨.mustAppend f mg.Filename, by unfold validHistoryLoop; rw [if_pos hf]⟩
    · push_neg at hf
      rcases hch : checkHash readFile mg with e | u
      · refine ⟨e, ?_⟩
        unfold validHistoryLoop
        rw [if_neg (by simpa using hf)]
        simp [hch]
      · obtain ⟨q, hq, hne⟩ := h
        rcases List.mem_cons.mp hq with rfl | hmem
        · exact absurd hf hne
        · obtain ⟨e, he⟩ := ih ⟨q, hmem, hne⟩
          refine ⟨e, ?_⟩
          unfold validHistoryLoop
          rw [if_neg (by simpa using hf)]
          simp [hch, he]

/-- With all visited filenames matching, a digest difference on some
visited record fails the loop with the checksum-mismatch error naming a
mismatching record. -/
theorem validHistoryLoop_mismatch (readFile : String → String) :
    ∀ (z : List (String × Migration)),
      (∀ p ∈ z, p.2.Filename = p.1) →
      (∃ p ∈ z, (computeChecksum (readFile p.2.fullpath)).2 ≠ p.2.Checksum) →
      ∃ mg, (∃ f, (f, mg) ∈ z) ∧
        (computeChecksum (readFile mg.fullpath)).2 ≠ mg.Checksum ∧
        validHistoryLoop readFile z =
          .error (.checksumMismatch mg.Filename) := by
  intro z
  induction z with
  | nil => intro _ h; simp at h
  | cons p rest ih =>
    intro hall h
    obtain ⟨f, mg⟩ := p
    have hf : mg.Filename = f := hall (f, mg) (by simp)
    by_cases hd : (computeChecksum (readFile mg.fullpath)).2 ≠ mg.Checksum
    · refine ⟨mg, ⟨f, by simp⟩, hd, ?_⟩
      unfold validHistoryLoop
      rw [if_neg (by simpa using hf)]
      have hch : checkHash readFile mg =
          .error (.checksumMismatch mg.Filename) := by
        unfold checkHash
        rw [if_pos hd]
      simp [hch]
    · push_neg at hd
      obtain ⟨q, hq, hne⟩ := h
      rcases List.mem_cons.mp hq with rfl | hmem
      · exact absurd hd hne
      · obtain ⟨mg', hmem', hne', heq⟩ :=
          ih (fun r hr => hall r (by simp [hr])) ⟨q, hmem, hne⟩
        refine ⟨mg', ?_, hne', ?_⟩
        · obtain ⟨f', hf'⟩ := hmem'
          exact ⟨f', by simp [hf']⟩
        · unfold validHistoryLoop
          rw [if_neg (by simpa using hf)]
          have hch : checkHash readFile mg = .ok () := by
            unfold checkHash
            rw [if_neg (by simpa using hd)]
          simp [hch, heq]

/-- C3 (confirmed): history validation fails with the missing-migrations
error whenever the history is longer than the catalog; it fails whenever,
at some shared index at or beyond the skip offset (a pair visited by the
loop, i.e. a member of the zip of the dropped lists), the history record's
filename differs from the catalog entry's; and when all visited filenames
match but some visited record's stored checksum differs from the digest of
the current content of its resolved file, it fails with the
checksum-mismatch error naming such a record — editing an
already-fully-applied file is never silently accepted. -/
theorem historyValidation_spec :
    (∀ (readFile : String → String) (files : List String)
        (migrations : List Migration) (idx : Nat),
        files.length < migrations.length →
        validHistory readFile files migrations idx =
          .error .missingMigrations) ∧
    (∀ (readFile : String → String) (files : List String)
        (migrations : List Migration) (idx : Nat),
        migrations.length ≤ files.length →
        (∃ p ∈ (files.drop idx).zip (migrations.drop idx),
          p.2.Filename ≠ p.1) →
        ∃ e, validHistory readFile files migrations idx = .error e) ∧
    (∀ (readFile : String → String) (files : List String)
        (migrations : List Migration) (idx : Nat),
        migrations.length ≤ files.length →
        (∀ p ∈ (files.drop idx).zip (migrations.drop idx),
          p.2.Filename = p.1) →
        (∃ p ∈ (files.drop idx).zip (migrations.drop idx),
          (computeChecksum (readFile p.2.fullpath)).2 ≠ p.2.Checksum) →
        ∃ mg, (∃ f, (f, mg) ∈ (files.drop idx).zip (migrations.drop idx)) ∧
          (computeChecksum (readFile mg.fullpath)).2 ≠ mg.Checksum ∧
          validHistory readFile files migrations idx =
            .error (.checksumMismatch mg.Filename)) := by
  refine ⟨?_, ?_, ?_⟩
  · intro readFile files migrations idx hlen
    unfold validHistory
    rw [if_pos hlen]
  · intro readFile files migrations idx hlen hdiv
    obtain ⟨e, he⟩ := validHistoryLoop_diverged readFile
      ((files.drop idx).zip (migrations.drop idx)) hdiv
    refine ⟨e, ?_⟩
    unfold validHistory
    rw [if_neg (by omega), he]
  · intro readFile files migrations idx hlen hall hbad
    obtain ⟨mg, hmem, hne, heq⟩ := validHistoryLoop_mismatch readFile
      ((files.drop idx).zip (migrations.drop idx)) hall hbad
    refine ⟨mg, hmem, hne, ?_⟩
    unfold validHistory
    rw [if_neg (by omega), heq]

/-- Witness for C3: a deleted file (history longer than catalog), an
out-of-order insertion, and an edited already-applied file. -/
theorem historyValidation_spec_witness :
    validHistory (fun _ => "a") ["1.sql"]
        [Migration.mk "1.sql" (computeChecksum "a").2 "a" "m/1.sql",
         Migration.mk "2.sql" (computeChecksum "a").2 "a" "m/2.sql"] 0 =
      .error .missingMigrations ∧
    (∃ e, validHistory (fun _ => "a") ["0.sql", "2.sql"]
        [Migration.mk "1.sql" (computeChecksum "a").2 "a" "m/1.sql"] 0 =
      .error e) ∧
    (∃ mg, (∃ f, (f, mg) ∈ (["1.sql", "2.sql"].drop 0).zip
          (([Migration.mk "1.sql" (computeChecksum "edited").2 "edited"
              "m/1.sql"] : List Migration).drop 0)) ∧
      (computeChecksum ((fun _ => "original") mg.fullpath)).2 ≠ mg.Checksum ∧
      validHistory (fun _ => "original") ["1.sql", "2.sql"]
          [Migration.mk "1.sql" (computeChecksum "edited").2 "edited"
            "m/1.sql"] 0 =
        .error (.checksumMismatch mg.Filename)) :=
  ⟨historyValidation_spec.1 (fun _ => "a") ["1.sql"]
      [Migration.mk "1.sql" (computeChecksum "a").2 "a" "m/1.sql",
       Migration.mk "2.sql" (computeChecksum "a").2 "a" "m/2.sql"] 0
      (by decide),
   historyValidation_spec.2.1 (fun _ => "a") ["0.sql", "2.sql"]
      [Migration.mk "1.sql" (computeChecksum "a").2 "a" "m/1.sql"] 0
      (by decide) ⟨("0.sql", Migration.mk "1.sql" (computeChecksum "a").2 "a"
        "m/1.sql"), by decide, by decide⟩,
   historyValidation_spec.2.2 (fun _ => "original") ["1.sql", "2.sql"]
      [Migration.mk "1.sql" (computeChecksum "edited").2 "edited" "m/1.sql"] 0
      (by decide)
      (by decide)
      ⟨("1.sql", Migration.mk "1.sql" (computeChecksum "edited").2 "edited"
        "m/1.sql"), by decide, by decide⟩⟩

/-! ## C7: trigger-function bodies are re-joined into one statement -/

theorem appendLast_concat (acc : List String) (x c : String) :
    appendLast (acc ++ [x]) c = acc ++ [x ++ c] := by
  unfold appendLast
  rw [List.dropLast_concat, List.getLast?_concat]
  rfl

theorem appendLast_append (a b : List String) (hb : b ≠ []) (c : String) :
    appendLast (a ++ b) c = a ++ appendLast b c := by
  unfold appendLast
  rw [List.dropLast_append_of_ne_nil a hb, List.getLast?_append]
  rcases b with _ | ⟨x, xs⟩
  · exact absurd rfl hb
  · cases hy : (x :: xs).getLast? with
    | none => simp at hy
    | some y => simp

/-- One step of the joining loop: a trigger fragment opens a new
accumulating statement. -/
theorem joinCmds_cons_trigger (acc : List String) (kg : Bool) (c : String)
    (cs : List String) (hc : hasTriggerMarker c = true) :
    joinCmds acc kg (c :: cs) = joinCmds (acc ++ [c ++ ";"]) true cs := by
  conv_lhs => unfold joinCmds
  rw [if_pos hc]

/-- One step of the joining loop: outside a block, a plain fragment is
appended as its own statement. -/
theorem joinCmds_cons_plain (acc : List String) (c : String)
    (cs : List String) (hc : hasTriggerMarker c = false) :
    joinCmds acc false (c :: cs) = joinCmds (acc ++ [c]) false cs := by
  conv_lhs => unfold joinCmds
  rw [if_neg (by simp [hc])]
  simp

/-- One step of the joining loop: inside a block, a body fragment is
folded into the last statement with its terminator restored. -/
theorem joinCmds_cons_body (acc : List String) (c : String)
    (cs : List String) (hc : hasTriggerMarker c = false)
    (hp : hasPlpgsql c = false) :
    joinCmds acc true (c :: cs) =
      joinCmds (appendLast acc (c ++ ";")) true cs := by
  conv_lhs => unfold joinCmds
  rw [if_neg (by simp [hc])]
  simp only [if_true]
  rw [if_neg (by simp [hp])]

/-- One step of the joining loop: inside a block, the closing fragment is
folded in and accumulation ends. -/
theorem joinCmds_cons_close (acc : List String) (c : String)
    (cs : List String) (hc : hasTriggerMarker c = false)
    (hp : hasPlpgsql c = true) :
    joinCmds acc true (c :: cs) = joinCmds (appendLast acc c) false cs := by
  conv_lhs => unfold joinCmds
  rw [if_neg (by simp [hc])]
  simp only [if_true]
  rw [if_pos hp]

/-- The joining loop never reaches below its starting accumulator: a
fixed prefix of completed statements factors out. -/
theorem joinCmds_factor :
    ∀ (l : List String) (a b : List String) (kg : Bool),
      (kg = true → b ≠ []) →
      joinCmds (a ++ b) kg l = (joinCmds b kg l).map (fun r => a ++ r) := by
  intro l
  induction l with
  | nil =>
    intro a b kg hb
    cases kg <;> simp [joinCmds, Except.map]
  | cons c cs ih =>
    intro a b kg hb
    by_cases ht : hasTriggerMarker c = true
    · rw [joinCmds_cons_trigger (a ++ b) kg c cs ht,
        joinCmds_cons_trigger b kg c cs ht, List.append_assoc]
      exact ih a (b ++ [c ++ ";"]) true (fun _ => by simp)
    · have ht' : hasTriggerMarker c = false := by
        cases h : hasTriggerMarker c
        · rfl
        · exact absurd h ht
      cases kg with
      | false =>
        rw [joinCmds_cons_plain (a ++ b) c cs ht',
          joinCmds_cons_plain b c cs ht', List.append_assoc]
        exact ih a (b ++ [c]) false (fun h => absurd h (by simp))
      | true =>
        have hb' : b ≠ [] := hb rfl
        by_cases hp : hasPlpgsql c = true
        · rw [joinCmds_cons_close (a ++ b) c cs ht' hp,
            joinCmds_cons_close b c cs ht' hp, appendLast_append a b hb']
          exact ih a (appendLast b c) false (fun h => absurd h (by simp))
        · have hp' : hasPlpgsql c = false := by
            cases h : hasPlpgsql c
            · rfl
            · exact absurd h hp
          rw [joinCmds_cons_body (a ++ b) c cs ht' hp',
            joinCmds_cons_body b c cs ht' hp', appendLast_append a b hb']
          refine ih a (appendLast b (c ++ ";")) true (fun _ => ?_)
          unfold appendLast
          simp

/-- Fragments without the trigger marker pass through unchanged while not
accumulating. -/
theorem joinCmds_plainRun :
    ∀ (pre acc l : List String),
      (∀ p ∈ pre, hasTriggerMarker p = false) →
      joinCmds acc false (pre ++ l) = joinCmds (acc ++ pre) false l := by
  intro pre
  induction pre with
  | nil => intro acc l _; simp
  | cons p ps ih =>
    intro acc l hpre
    have hp : hasTriggerMarker p = false := hpre p (by simp)
    rw [List.cons_append, joinCmds_cons_plain acc p (ps ++ l) hp,
      ih (acc ++ [p]) l (fun q hq => hpre q (by simp [hq])),
      List.append_assoc]
    simp

/-- While accumulating, body fragments (no trigger marker, no closing
marker) are folded into the last statement with their terminators
restored. -/
theorem joinCmds_accumulate :
    ∀ (mids : List String) (acc : List String) (x : String) (l : List String),
      (∀ m ∈ mids, hasTriggerMarker m = false ∧ hasPlpgsql m = false) →
      joinCmds (acc ++ [x]) true (mids ++ l) =
        joinCmds (acc ++ [midsAcc x mids]) true l := by
  intro mids
  induction mids with
  | nil => intro acc x l _; simp [midsAcc]
  | cons m ms ih =>
    intro acc x l hm
    have h1 : hasTriggerMarker m = false := (hm m (by simp)).1
    have h2 : hasPlpgsql m = false := (hm m (by simp)).2
    rw [List.cons_append, joinCmds_cons_body (acc ++ [x]) m (ms ++ l) h1 h2,
      appendLast_concat]
    have hx : x ++ (m ++ ";") = x ++ m ++ ";" :=
      (String.append_assoc x m ";").symm
    rw [hx, ih acc (x ++ m ++ ";") l (fun q hq => hm q (by simp [hq]))]
    rfl

theorem rejoin_cons_append (a b : String) (l : List String) :
    rejoin (a :: (l ++ [b])) = a ++ ";" ++ rejoin (l ++ [b]) := by
  cases l <;> rfl

theorem midsAcc_rejoin :
    ∀ (mids : List String) (x close : String),
      midsAcc (x ++ ";") mids ++ close = x ++ ";" ++ rejoin (mids ++ [close]) := by
  intro mids
  induction mids with
  | nil => intro x c; simp [midsAcc, rejoin, String.append_assoc]
  | cons m ms ih =>
    intro x c
    show midsAcc (x ++ ";" ++ m ++ ";") ms ++ c = _
    rw [ih (x ++ ";" ++ m) c, List.cons_append, rejoin_cons_append]
    simp [String.append_assoc]

/-- While accumulating, reaching the end of input without a closing
fragment is the unterminated-block error. -/
theorem joinCmds_never_closed :
    ∀ (l : List String) (acc : List String), acc ≠ [] →
      (∀ r ∈ l, hasTriggerMarker r = true ∨ hasPlpgsql r = false) →
      joinCmds acc true l = .error .unterminated := by
  intro l
  induction l with
  | nil => intro acc _ _; rfl
  | cons c cs ih =>
    intro acc hacc hl
    by_cases ht : hasTriggerMarker c = true
    · rw [joinCmds_cons_trigger acc true c cs ht]
      exact ih (acc ++ [c ++ ";"]) (by simp) (fun r hr => hl r (by simp [hr]))
    · have ht' : hasTriggerMarker c = false := by
        cases h : hasTriggerMarker c
        · rfl
        · exact absurd h ht
      have hp : hasPlpgsql c = false := by
        rcases hl c (by simp) with h | h
        · exact absurd h ht
        · exact h
      rw [joinCmds_cons_body acc c cs ht' hp]
      refine ih (appendLast acc (c ++ ";")) ?_ (fun r hr => hl r (by simp [hr]))
      unfold appendLast
      simp

/-- C7 (confirmed): a fragment containing the trigger-function marker
(case-insensitively) followed by body fragments (which contain neither
marker — the file's embedded terminators produced them) and a closing
fragment containing the procedural-language marker is re-joined into
exactly one statement, the original text `rejoin (t :: mids ++ [close])`
of the whole definition with its internal terminators restored; and if no
fragment after the marker ever closes the block (each either restarts
accumulation or lacks the closing marker), the split fails with the
unterminated-block error. -/
theorem triggerFunction_spec :
    (∀ (pre mids rest out : List String) (t close : String),
        (∀ p ∈ pre, hasTriggerMarker p = false) →
        hasTriggerMarker t = true →
        (∀ m ∈ mids, hasTriggerMarker m = false ∧ hasPlpgsql m = false) →
        hasTriggerMarker close = false →
        hasPlpgsql close = true →
        joinCmds [] false rest = .ok out →
        joinCmds [] false (pre ++ t :: (mids ++ close :: rest)) =
          .ok (pre ++ rejoin (t :: (mids ++ [close])) :: out)) ∧
    (∀ (pre rest : List String) (t : String),
        (∀ p ∈ pre, hasTriggerMarker p = false) →
        hasTriggerMarker t = true →
        (∀ r ∈ rest, hasTriggerMarker r = true ∨ hasPlpgsql r = false) →
        joinCmds [] false (pre ++ t :: rest) = .error .unterminated) := by
  constructor
  · intro pre mids rest out t close hpre ht hmids hct hcp hrest
    rw [joinCmds_plainRun pre [] (t :: (mids ++ close :: rest)) hpre,
      joinCmds_cons_trigger ([] ++ pre) false t (mids ++ close :: rest) ht,
      joinCmds_accumulate mids ([] ++ pre) (t ++ ";") (close :: rest) hmids,
      joinCmds_cons_close (([] ++ pre) ++ [midsAcc (t ++ ";") mids]) close
        rest hct hcp,
      appendLast_concat, midsAcc_rejoin mids t close,
      ← rejoin_cons_append t close mids]
    have hsplit : ([] ++ pre) ++ [rejoin (t :: (mids ++ [close]))] =
        (pre ++ [rejoin (t :: (mids ++ [close]))]) ++ ([] : List String) := by
      simp
    rw [hsplit, joinCmds_factor rest (pre ++ [rejoin (t :: (mids ++ [close]))])
      [] false (fun h => absurd h (by simp)), hrest]
    simp [Except.map]
  · intro pre rest t hpre ht hrest
    rw [joinCmds_plainRun pre [] (t :: rest) hpre,
      joinCmds_cons_trigger ([] ++ pre) false t rest ht]
    exact joinCmds_never_closed rest (([] ++ pre) ++ [t ++ ";"]) (by simp) hrest

/-- Witness for C7: a trigger function whose body embeds a terminator,
closed by a `language plpgsql` fragment (one statement, the original
text), and the same file without the closing marker (unterminated). -/
theorem triggerFunction_spec_witness :
    joinCmds [] false
        (["create table a (b int)"] ++
          "create function f() returns trigger as $$ begin x" ::
            ([" y"] ++ " end $$ language plpgsql" :: ["\nselect 2", "\n"])) =
      .ok (["create table a (b int)"] ++
        rejoin ("create function f() returns trigger as $$ begin x" ::
          ([" y"] ++ [" end $$ language plpgsql"])) :: ["\nselect 2", "\n"]) ∧
    joinCmds [] false
        ([] ++ "create function f() returns trigger as $$ begin x" ::
          [" y", " end $$"]) =
      .error .unterminated :=
  ⟨triggerFunction_spec.1 ["create table a (b int)"] [" y"]
      ["\nselect 2", "\n"] ["\nselect 2", "\n"]
      "create function f() returns trigger as $$ begin x"
      " end $$ language plpgsql"
      (by decide) (by decide) (by decide) (by decide) (by decide) rfl,
   triggerFunction_spec.2 [] [" y", " end $$"]
      "create function f() returns trigger as $$ begin x"
      (by decide) (by decide) (by decide)⟩

/-! ## Sort-comparator lemmas shared by the ordering claims -/

/-- Inserting a file with an unparseable name into a non-empty prefix
fails at the very first comparison, naming that file. -/
theorem insertFile_malformed (rev : List String) (x : String)
    (hx : parseSeq x = none) (hrev : rev ≠ []) :
    insertFile x rev = .error (.parseFailure x) := by
  cases rev with
  | nil => exact absurd rfl hrev
  | cons y ys => simp [insertFile, lessFile, hx]

/-- Provenance of an insertion error: either a parse failure named after
the inserted file (caused by it or by a prefix member), or a duplicate
between the inserted file and a prefix member. -/
theorem insertFile_error :
    ∀ (rev : List String) (x : String) (e : SortError),
      insertFile x rev = .error e →
      (e = .parseFailure x ∧
        (parseSeq x = none ∨ ∃ y ∈ rev, parseSeq y = none)) ∨
      (∃ n, e = .duplicateSeq n ∧ parseSeq x = some n ∧
        ∃ y ∈ rev, parseSeq y = some n) := by
  intro rev
  induction rev with
  | nil => intro x e h; simp [insertFile] at h
  | cons y ys ih =>
    intro x e h
    cases hx : parseSeq x with
    | none =>
      left
      refine ⟨?_, Or.inl rfl⟩
      simp [insertFile, lessFile, hx] at h
      exact h.symm
    | some nx =>
      cases hy : parseSeq y with
      | none =>
        left
        refine ⟨?_, Or.inr ⟨y, by simp, hy⟩⟩
        simp [insertFile, lessFile, hx, hy] at h
        exact h.symm
      | some ny =>
        by_cases heq : nx = ny
        · right
          simp [insertFile, lessFile, hx, hy, heq] at h
          exact ⟨ny, h.symm, by rw [heq], y, by simp, hy⟩
        · by_cases hlt : nx < ny
          · rw [insertFile] at h
            rw [show lessFile x y = .ok true by
              simp [lessFile, hx, hy, heq, hlt]] at h
            cases hins : insertFile x ys with
            | error e' =>
              rw [hins] at h
              simp at h
              subst h
              rcases ih x e' hins with ⟨he, hcause⟩ | ⟨n, he, hxn, y', hy', hyn⟩
              · rcases hcause with hnone | ⟨y', hy', hn⟩
                · rw [hx] at hnone
                  cases hnone
                · exact Or.inl ⟨he, Or.inr ⟨y', by simp [hy'], hn⟩⟩
              · rw [hx] at hxn
                exact Or.inr ⟨n, he, hxn, y', by simp [hy'], hyn⟩
            | ok r =>
              rw [hins] at h
              simp at h
          · rw [insertFile] at h
            rw [show lessFile x y = .ok false by
              simp [lessFile, hx, hy, heq, hlt]] at h
            simp at h

/-- A successful insertion permutes the inserted element into the
prefix. -/
theorem insertFile_ok_perm :
    ∀ (rev : List String) (x : String) (rev2 : List String),
      insertFile x rev = .ok rev2 → rev2.Perm (x :: rev) := by
  intro rev
  induction rev with
  | nil =>
    intro x rev2 h
    simp [insertFile] at h
    rw [← h]
  | cons y ys ih =>
    intro x rev2 h
    rw [insertFile] at h
    cases hl : lessFile x y with
    | error e => rw [hl] at h; simp at h
    | ok b =>
      rw [hl] at h
      cases b with
      | true =>
        cases hins : insertFile x ys with
        | error e => rw [hins] at h; simp at h
        | ok r =>
          rw [hins] at h
          simp at h
          rw [← h]
          exact ((ih x r hins).cons y).trans (List.Perm.swap x y ys)
      | false =>
        simp at h
        rw [← h]

/-- A successful insertion into a strictly descending, fully parsed
prefix stays strictly descending. -/
theorem insertFile_ok_sorted :
    ∀ (rev : List String) (x : String) (rev2 : List String),
      (parseSeq x).isSome → allParse rev → rev.Pairwise gtKey →
      insertFile x rev = .ok rev2 → rev2.Pairwise gtKey := by
  intro rev
  induction rev with
  | nil =>
    intro x rev2 _ _ _ h
    simp [insertFile] at h
    rw [← h]
    simp
  | cons y ys ih =>
    intro x rev2 hx hall hpw h
    obtain ⟨nx, hnx⟩ := Option.isSome_iff_exists.mp hx
    obtain ⟨ny, hny⟩ := Option.isSome_iff_exists.mp (hall y (by simp))
    have hkx : seqKey x = nx := by simp [seqKey, hnx]
    have hky : seqKey y = ny := by simp [seqKey, hny]
    rw [insertFile] at h
    by_cases heq : nx = ny
    · rw [show lessFile x y = .error (.duplicateSeq nx) by
        simp [lessFile, hnx, hny, heq]] at h
      simp at h
    · by_cases hlt : nx < ny
      · rw [show lessFile x y = .ok true by
          simp [lessFile, hnx, hny, heq, hlt]] at h
        cases hins : insertFile x ys with
        | error e => rw [hins] at h; simp at h
        | ok r =>
          rw [hins] at h
          simp at h
          rw [← h]
          refine List.Pairwise.cons ?_ (ih x r hx
            (fun f hf => hall f (by simp [hf])) hpw.of_cons hins)
          intro z hz
          have hz' := (insertFile_ok_perm ys x r hins).mem_iff.mp hz
          rcases List.mem_cons.mp hz' with rfl | hzys
          · show seqKey z < seqKey y
            rw [hkx, hky]
            exact hlt
          · exact List.rel_of_pairwise_cons hpw hzys
      · rw [show lessFile x y = .ok false by
          simp [lessFile, hnx, hny, heq, hlt]] at h
        simp at h
        rw [← h]
        have hgt : ny < nx := by omega
        refine List.Pairwise.cons ?_ hpw
        intro z hz
        rcases List.mem_cons.mp hz with rfl | hzys
        · show seqKey z < seqKey x
          rw [hkx, hky]
          exact hgt
        · have hyz := List.rel_of_pairwise_cons hpw hzys
          show seqKey z < seqKey x
          unfold gtKey at hyz
          rw [hkx]
          rw [hky] at hyz
          omega

/-- A successful sort permutes its input and is strictly ascending in the
parsed keys. -/
theorem sortLoop_ok :
    ∀ (l rev out : List String),
      allParse rev → allParse l → rev.Pairwise gtKey →
      sortLoop rev l = .ok out →
      out.Perm (rev ++ l) ∧
        out.Pairwise (fun a b => seqKey a < seqKey b) := by
  intro l
  induction l with
  | nil =>
    intro rev out _ _ hpw h
    simp [sortLoop] at h
    rw [← h]
    constructor
    · simp only [List.append_nil]
      exact rev.reverse_perm
    · simpa [List.pairwise_reverse, gtKey] using hpw
  | cons x xs ih =>
    intro rev out hrev hl hpw h
    rw [sortLoop] at h
    cases hins : insertFile x rev with
    | error e => rw [hins] at h; simp at h
    | ok rev2 =>
      rw [hins] at h
      have hperm := insertFile_ok_perm rev x rev2 hins
      have hx : (parseSeq x).isSome := hl x (by simp)
      have hrev2 : allParse rev2 := by
        intro f hf
        rcases List.mem_cons.mp (hperm.mem_iff.mp hf) with rfl | hfrev
        · exact hx
        · exact hrev f hfrev
      have hsorted2 := insertFile_ok_sorted rev x rev2 hx hrev hpw hins
      obtain ⟨hp, hpw'⟩ := ih rev2 out hrev2
        (fun f hf => hl f (by simp [hf])) hsorted2 h
      exact ⟨hp.trans ((hperm.append_right xs).trans List.perm_middle.symm),
        hpw'⟩

/-- Provenance of a sort error: a parse failure names a file of the input
and stems from some unparseable name in it, or a duplicate error carries a
sequence number occurring at least twice in the input. -/
theorem sortLoop_error :
    ∀ (l rev : List String) (e : SortError),
      sortLoop rev l = .error e →
      (∃ s ∈ rev ++ l, e = .parseFailure s ∧
        ∃ b ∈ rev ++ l, parseSeq b = none) ∨
      (∃ n, e = .duplicateSeq n ∧
        2 ≤ (rev ++ l).countP (fun f => parseSeq f == some n)) := by
  intro l
  induction l with
  | nil => intro rev e h; simp [sortLoop] at h
  | cons x xs ih =>
    intro rev e h
    rw [sortLoop] at h
    cases hins : insertFile x rev with
    | error e' =>
      rw [hins] at h
      simp at h
      subst h
      rcases insertFile_error rev x e' hins with
        ⟨he, hcause⟩ | ⟨n, he, hxn, y, hy, hyn⟩
      · left
        refine ⟨x, by simp, he, ?_⟩
        rcases hcause with hxnone | ⟨y, hy, hynone⟩
        · exact ⟨x, by simp, hxnone⟩
        · exact ⟨y, by simp [hy], hynone⟩
      · right
        refine ⟨n, he, ?_⟩
        rw [List.countP_append]
        have h1 : 0 < rev.countP (fun f => parseSeq f == some n) :=
          List.countP_pos_iff.mpr ⟨y, hy, by simp [hyn]⟩
        have h2 : 0 < (x :: xs).countP (fun f => parseSeq f == some n) :=
          List.countP_pos_iff.mpr ⟨x, by simp, by simp [hxn]⟩
        omega
    | ok rev2 =>
      rw [hins] at h
      have hperm : (rev2 ++ xs).Perm (rev ++ x :: xs) :=
        ((insertFile_ok_perm rev x rev2 hins).append_right xs).trans
          List.perm_middle.symm
      rcases ih rev2 e h with ⟨s, hs, he, b, hb, hbnone⟩ | ⟨n, he, hcount⟩
      · exact Or.inl ⟨s, hperm.mem_iff.mp hs, he, b,
          hperm.mem_iff.mp hb, hbnone⟩
      · exact Or.inr ⟨n, he, by rw [← hperm.countP_eq]; exact hcount⟩

/-- With a non-empty, fully parsed prefix, an unparseable name among the
remaining files forces a sort error. -/
theorem sortLoop_malformed :
    ∀ (l rev : List String), rev ≠ [] → allParse rev →
      (∃ f ∈ l, parseSeq f = none) →
      ∃ e, sortLoop rev l = .error e := by
  intro l
  induction l with
  | nil => intro rev _ _ h; simp at h
  | cons x xs ih =>
    intro rev hne hall h
    rw [sortLoop]
    cases hx : parseSeq x with
    | none =>
      rw [insertFile_malformed rev x hx hne]
      exact ⟨.parseFailure x, rfl⟩
    | some nx =>
      cases hins : insertFile x rev with
      | error e => exact ⟨e, rfl⟩
      | ok rev2 =>
        have hperm := insertFile_ok_perm rev x rev2 hins
        refine ih rev2 ?_ ?_ ?_
        · intro h0
          have := hperm.length_eq
          rw [h0] at this
          simp at this
        · intro f hf
          rcases List.mem_cons.mp (hperm.mem_iff.mp hf) with rfl | hfrev
          · simp [hx]
          · exact hall f hfrev
        · obtain ⟨f, hf, hfnone⟩ := h
          rcases List.mem_cons.mp hf with rfl | hfxs
          · rw [hx] at hfnone
            cases hfnone
          · exact ⟨f, hfxs, hfnone⟩

/-- A strictly ascending key sequence holds each sequence number at most
once. -/
theorem sorted_countP_le_one :
    ∀ (l : List String),
      l.Pairwise (fun a b => seqKey a < seqKey b) →
      ∀ n, l.countP (fun f => parseSeq f == some n) ≤ 1 := by
  intro l
  induction l with
  | nil => intro _ n; simp
  | cons a l ih =>
    intro hpw n
    rw [List.countP_cons]
    by_cases ha : parseSeq a = some n
    · have hzero : l.countP (fun f => parseSeq f == some n) = 0 := by
        rw [List.countP_eq_zero]
        intro b hb hbn
        have hbn' : parseSeq b = some n := by simpa using hbn
        have hrel := List.rel_of_pairwise_cons hpw hb
        have hka : seqKey a = n := by simp [seqKey, ha]
        have hkb : seqKey b = n := by simp [seqKey, hbn']
        omega
      simp [hzero, ha]
    · have : ¬ ((fun f => parseSeq f == some n) a = true) := by simpa using ha
      simp [this]
      exact ih hpw.of_cons n

/-! ## C4: duplicate sequence numbers fail the sort -/

/-- C4 counterexample: the claim promises a duplicate-sequence error for
every catalog in which two entries share a sequence number, in every input
ordering.  With the unparseable `x.sql` ordered first, the comparator hits
the parse failure before the collision of `1a.sql`/`1b.sql`, so the sort
fails with a malformed-filename error instead of the duplicate-sequence
error. -/
theorem duplicateSequence_counterexample :
    2 ≤ List.countP (fun f => parseSeq f == some 1)
        ["x.sql", "1a.sql", "1b.sql"] ∧
    sortFiles ["x.sql", "1a.sql", "1b.sql"] =
      .error (.parseFailure "1a.sql") :=
  ⟨by decide, by decide⟩

/-- C4 (corrected): for every catalog in which every filename parses and
two entries parse to the same sequence number, the sort step fails with a
duplicate-sequence error reporting a colliding number — a number carried
by at least two entries — and this holds for every input ordering (the
list below is an arbitrary ordering of the directory entries). -/
theorem duplicateSequence_spec :
    ∀ (files : List String),
      (∀ f ∈ files, (parseSeq f).isSome) →
      (∃ n, 2 ≤ files.countP (fun f => parseSeq f == some n)) →
      ∃ n, sortFiles files = .error (.duplicateSeq n) ∧
        2 ≤ files.countP (fun f => parseSeq f == some n) := by
  intro files hall hdup
  obtain ⟨n0, hn0⟩ := hdup
  cases files with
  | nil => simp at hn0
  | cons f0 rest0 =>
    cases hres : sortLoop [f0] rest0 with
    | ok out =>
      exfalso
      obtain ⟨hperm, hpw⟩ := sortLoop_ok rest0 [f0] out
        (fun f hf => by
          rcases List.mem_singleton.mp hf with rfl
          exact hall f (by simp))
        (fun f hf => hall f (by simp [hf])) (by simp) hres
      have hle := sorted_countP_le_one out hpw n0
      rw [hperm.countP_eq] at hle
      have : List.countP (fun f => parseSeq f == some n0) ([f0] ++ rest0) =
          List.countP (fun f => parseSeq f == some n0) (f0 :: rest0) := rfl
      omega
    | error e =>
      rcases sortLoop_error rest0 [f0] e hres with
        ⟨s, hs, he, b, hb, hbnone⟩ | ⟨n, he, hcount⟩
      · have hbs := hall b (by simpa using hb)
        rw [hbnone] at hbs
        cases hbs
      · refine ⟨n, ?_, hcount⟩
        show sortLoop [f0] rest0 = _
        rw [hres, he]

/-- Witness for C4: two colliding filenames. -/
theorem duplicateSequence_spec_witness :
    ∃ n, sortFiles ["1a.sql", "1b.sql"] = .error (.duplicateSeq n) ∧
      2 ≤ List.countP (fun f => parseSeq f == some n) ["1a.sql", "1b.sql"] :=
  duplicateSequence_spec ["1a.sql", "1b.sql"] (by decide) ⟨1, by decide⟩

/-! ## C5: malformed filenames and the single-file blind spot -/

/-- C5 counterexample: the claim states catalog construction fails on a
malformed filename for every catalog size, including a catalog of exactly
one file.  `x.sql` has no leading digits, yet the sort of the singleton
catalog succeeds — the comparator that performs all validation is never
invoked. -/
theorem malformedFilename_counterexample :
    parseSeq "x.sql" = none ∧ sortFiles ["x.sql"] = .ok ["x.sql"] :=
  ⟨by decide, by decide⟩

/-- C5 (corrected): for every catalog of at least two files containing an
entry with no leading digits or overflowing digits, the sort step fails;
when additionally no sequence number is shared by two entries (so no
duplicate error can preempt it), the failure is a malformed-filename
error naming one of the catalog's files — though not necessarily the
offending one, since the comparator attributes its second argument's
parse failure to its first.  A single-file catalog is never validated and
always passes. -/
theorem malformedFilename_spec :
    ∀ (files : List String), 2 ≤ files.length →
      (∃ f ∈ files, parseSeq f = none) →
      (∃ e, sortFiles files = .error e) ∧
      ((∀ n, files.countP (fun f => parseSeq f == some n) ≤ 1) →
        ∃ s ∈ files, sortFiles files = .error (.parseFailure s)) := by
  intro files h2 hbad
  rcases files with _ | ⟨f0, _ | ⟨f1, rest⟩⟩
  · simp at h2
  · simp at h2
  · have hE : ∃ e, sortLoop [f0] (f1 :: rest) = .error e := by
      cases hf1 : parseSeq f1 with
      | none =>
        rw [sortLoop, insertFile_malformed [f0] f1 hf1 (by simp)]
        exact ⟨.parseFailure f1, rfl⟩
      | some n1 =>
        cases hf0 : parseSeq f0 with
        | none =>
          rw [sortLoop,
            show insertFile f1 [f0] = .error (.parseFailure f1) by
              simp [insertFile, lessFile, hf1, hf0]]
          exact ⟨.parseFailure f1, rfl⟩
        | some n0 =>
          cases hins : insertFile f1 [f0] with
          | error e =>
            rw [sortLoop, hins]
            exact ⟨e, rfl⟩
          | ok rev2 =>
            have hperm := insertFile_ok_perm [f0] f1 rev2 hins
            obtain ⟨e, he⟩ := sortLoop_malformed rest rev2
              (by
                intro h0
                have := hperm.length_eq
                rw [h0] at this
                simp at this)
              (by
                intro f hf
                rcases List.mem_cons.mp (hperm.mem_iff.mp hf) with rfl | hf0'
                · simp [hf1]
                · rcases List.mem_singleton.mp hf0' with rfl
                  simp [hf0])
              (by
                obtain ⟨f, hf, hfnone⟩ := hbad
                rcases List.mem_cons.mp hf with rfl | hf'
                · rw [hf0] at hfnone; cases hfnone
                · rcases List.mem_cons.mp hf' with rfl | hf''
                  · rw [hf1] at hfnone; cases hfnone
                  · exact ⟨f, hf'', hfnone⟩)
            rw [sortLoop, hins]
            exact ⟨e, he⟩
    refine ⟨hE, fun hdist => ?_⟩
    obtain ⟨e, he⟩ := hE
    rcases sortLoop_error (f1 :: rest) [f0] e he with
      ⟨s, hs, heq, b, hb, hbnone⟩ | ⟨n, heq, hcount⟩
    · refine ⟨s, by simpa using hs, ?_⟩
      show sortLoop [f0] (f1 :: rest) = _
      rw [he, heq]
    · exfalso
      have := hdist n
      have hceq : List.countP (fun f => parseSeq f == some n)
          ([f0] ++ f1 :: rest) =
          List.countP (fun f => parseSeq f == some n) (f0 :: f1 :: rest) := rfl
      omega

/-- Witness for C5's theorem: a two-file catalog with one malformed
name. -/
theorem malformedFilename_spec_witness :
    (∃ e, sortFiles ["x.sql", "1.sql"] = .error e) ∧
    (∃ s ∈ ["x.sql", "1.sql"],
      sortFiles ["x.sql", "1.sql"] = .error (.parseFailure s)) := by
  have h := malformedFilename_spec ["x.sql", "1.sql"] (by decide)
    ⟨"x.sql", by decide, by decide⟩
  refine ⟨h.1, h.2 ?_⟩
  intro n
  have hx : parseSeq "x.sql" = none := by decide
  simp [List.countP_cons, hx]
  split <;> simp

/-! ## Sanity checks of the MD5 model against RFC 1321 test vectors -/

example : md5Hex "abc" = "900150983cd24fb0d6963f7d28e17f72" := by decide

example : md5Hex "" = "d41d8cd98f00b204e9800998ecf8427e" := by decide

/-! ## C2: a shrunk file (checkpoints ≥ statements) fails before executing -/

/-- C2 (confirmed): when the split-and-filtered statement sequence of a
file has `n` statements and at least `n` checkpoints are loaded for it,
`migrateFile` fails with the too-many-checkpoints error, emitting no
effect at all — no statement is executed and no durable state is
touched. -/
theorem tooManyCheckpoints_fails_pure (fname content : String)
    (checkpoints : List String) (execOk : String → Bool) (S : List String)
    (hS : statements fname content = .ok S)
    (hk : S.length ≤ checkpoints.length) :
    migrateFile fname content checkpoints execOk =
      ([], .error (.tooManyCheckpoints checkpoints.length S.length)) := by
  unfold migrateFile
  rw [hS]
  simp [ge_iff_le, hk]

/-- Witness for C2: two checkpoints against a one-statement file. -/
theorem tooManyCheckpoints_fails_pure_witness :
    migrateFile "f.sql" "select 1;\n" ["a", "b"] (fun _ => true) =
      ([], .error (.tooManyCheckpoints 2 1)) :=
  tooManyCheckpoints_fails_pure "f.sql" "select 1;\n" ["a", "b"]
    (fun _ => true) ["select 1"] (by decide) (by decide)

/-! ## C10: an override directory with no eligible file fails the catalog -/

/-- If the dialect subdirectory's listing has no eligible file, the
`getOverrideSet` loop fails as soon as it meets a directory entry named
after the dialect. -/
theorem overrideLoop_empty_sub (d : Dir) (dbt : String)
    (hempty : (d.sub dbt).filter eligible = []) :
    ∀ (es : List DirEnt) (acc : List String),
      (∃ e ∈ es, e.isDir = true ∧ e.name = dbt) →
      overrideLoop d dbt es acc = .error (.readSubDir dbt .noSqlFiles) := by
  intro es
  induction es with
  | nil => intro acc h; simp at h
  | cons e es ih =>
    intro acc h
    by_cases hc : (e.isDir && (e.name == dbt)) = true
    · have hname : e.name = dbt := by
        simp only [Bool.and_eq_true, beq_iff_eq] at hc
        exact hc.2
      unfold overrideLoop
      rw [if_pos hc, hname]
      unfold readDirFlat
      rw [hempty]
      simp
    · unfold overrideLoop
      rw [if_neg hc]
      refine ih acc ?_
      rcases h with ⟨e', he', hd, hn⟩
      rcases List.mem_cons.mp he' with rfl | hmem
      · exact absurd (by rw [hd, hn]; simp) hc
      · exact ⟨e', hmem, hd, hn⟩

/-- C10 (confirmed): with a non-empty dialect tag, a subdirectory exactly
named after the tag whose listing holds zero eligible SQL files makes
override resolution fail with the empty-catalog error, and the whole
catalog construction (`readDir`) fails with it — even though the
top-level directory has eligible migration files. -/
theorem emptyOverrideDir_fails_readDir (d : Dir) (dbt : String)
    (_hdbt : dbt ≠ "") (htop : d.entries.filter eligible ≠ [])
    (hsub : ∃ e ∈ d.entries, e.isDir = true ∧ e.name = dbt)
    (hempty : (d.sub dbt).filter eligible = []) :
    readDir d dbt =
      .error (.getOverrideSetFailed (.readSubDir dbt .noSqlFiles)) := by
  unfold readDir getOverrideSet
  have h1 : ((d.entries.filter eligible).map DirEnt.name).isEmpty = false := by
    rcases hfe : d.entries.filter eligible with _ | ⟨a, l⟩
    · exact absurd hfe htop
    · simp
  rw [overrideLoop_empty_sub d dbt hempty d.entries [] hsub]
  simp [h1]

/-- Witness for C10: a top-level catalog with `1.sql` and a `maria`
subdirectory holding only a non-SQL file. -/
theorem emptyOverrideDir_fails_readDir_witness :
    readDir
      (Dir.mk [DirEnt.mk "1.sql" false, DirEnt.mk "maria" true]
        (fun n => if n = "maria" then [DirEnt.mk "readme.txt" false] else []))
      "maria" =
      .error (.getOverrideSetFailed (.readSubDir "maria" .noSqlFiles)) :=
  emptyOverrideDir_fails_readDir
    (Dir.mk [DirEnt.mk "1.sql" false, DirEnt.mk "maria" true]
      (fun n => if n = "maria" then [DirEnt.mk "readme.txt" false] else []))
    "maria" (by decide) (by decide)
    ⟨DirEnt.mk "maria" true, by decide, by decide, rfl⟩ (by decide)

/-! ## C9: version bootstrap — the seed records carry no checksum -/

/-- C9 counterexample: the claim states each seed history record passed to
the datastore carries the entry's content checksum.  In the source the
`Migration` literal of `migrationsFromFiles` never assigns `Checksum`, so
every seed record carries the empty string — not the content's digest
(an MD5 hex digest is never empty). -/
theorem versionBootstrap_counterexample :
    (migrationsFromFiles [MFile.mk "1.sql" "create table t" "m/1.sql"]).map
        Migration.Checksum = [""] ∧
    (computeChecksum "create table t").2 ≠ "" :=
  ⟨rfl, by decide⟩

/-- C9 (corrected): a persisted version below 1 triggers the one-time
bootstrap passing one seed record per catalog entry, in catalog order,
carrying the entry's name and verbatim content but an *empty* checksum
field (the source never assigns it), after which the version is 1; a
persisted version above the compiled version fails with the
upgrade-required error. -/
theorem versionBootstrap_spec :
    (∀ (cur : Int) (files : List MFile), cur < 1 →
        versionStep cur files =
          .ok ([.upgradeToV1 (migrationsFromFiles files)], 1) ∧
        (migrationsFromFiles files).map
            (fun mg => (mg.Filename, mg.Content, mg.Checksum)) =
          files.map (fun f => (f.name, f.content, ""))) ∧
    (∀ (cur : Int) (files : List MFile), (toolVersion : Int) < cur →
        versionStep cur files = .error .mustUpgradeTool) := by
  constructor
  · intro cur files hcur
    constructor
    · unfold versionStep
      rw [if_neg (by unfold toolVersion; omega), if_pos hcur]
    · unfold migrationsFromFiles
      simp
  · intro cur files hcur
    unfold versionStep
    rw [if_pos hcur]

/-- Witness for C9's theorem: a fresh database (marker 0) with one file,
and a marker of 2 against compiled version 1. -/
theorem versionBootstrap_spec_witness :
    (versionStep 0 [MFile.mk "1.sql" "create table t" "m/1.sql"] =
        .ok ([.upgradeToV1
          [Migration.mk "1.sql" "" "create table t" "m/1.sql"]], 1) ∧
      (migrationsFromFiles [MFile.mk "1.sql" "create table t" "m/1.sql"]).map
          (fun mg => (mg.Filename, mg.Content, mg.Checksum)) =
        [("1.sql", "create table t", "")]) ∧
    versionStep 2 [] = .error .mustUpgradeTool :=
  ⟨(versionBootstrap_spec.1 0 [MFile.mk "1.sql" "create table t" "m/1.sql"]
      (by decide)),
   versionBootstrap_spec.2 2 [] (by decide)⟩

/-! ## C6: the candidate filter drops comment-prefixed statements -/

/-- C6 counterexample: the claim states a candidate containing executable
SQL preceded by a comment line is retained.  The source keeps a trimmed
candidate only when it does not start with `--`, so the candidate
`"-- note\nselect 1"` — which contains the executable `select 1` — is
dropped, and a file whose only statement is of that shape fails with the
no-statements error. -/
theorem commentPrefixedStatement_dropped :
    filterCmds ["-- note\nselect 1"] = [] ∧
    statements "f.sql" "-- note\nselect 1;\n" =
      .error (.noStatements "f.sql") :=
  ⟨rfl, rfl⟩

/-- C6 (corrected): after splitting, candidates are trimmed; exactly the
candidates that are empty or whose trimmed text starts with `--` are
dropped — including candidates that contain executable SQL after a
leading comment line — and an empty filtered result fails the run with
the no-statements error naming the file. -/
theorem filterCmds_spec :
    (∀ (cmds : List String) (c : String), c ∈ filterCmds cmds →
        0 < c.length ∧ strStartsWith c "--" = false ∧
          ∃ d ∈ cmds, trimSpace d = c) ∧
    (∀ (cmds : List String) (d : String), d ∈ cmds →
        0 < (trimSpace d).length → strStartsWith (trimSpace d) "--" = false →
        trimSpace d ∈ filterCmds cmds) ∧
    (∀ (fname content : String) (cmds : List String),
        joinCmds [] false (splitSemi content) = .ok cmds →
        filterCmds cmds = [] →
        statements fname content = .error (.noStatements fname)) := by
  refine ⟨?_, ?_, ?_⟩
  · intro cmds c hc
    unfold filterCmds at hc
    rw [List.mem_filter] at hc
    obtain ⟨hmem, hcond⟩ := hc
    rw [List.mem_map] at hmem
    obtain ⟨d, hd, rfl⟩ := hmem
    simp only [Bool.and_eq_true, Bool.not_eq_true', decide_eq_true_eq] at hcond
    exact ⟨hcond.1, hcond.2, d, hd, rfl⟩
  · intro cmds d hd h1 h2
    unfold filterCmds
    rw [List.mem_filter]
    refine ⟨List.mem_map_of_mem trimSpace hd, ?_⟩
    simp [h1, h2]
  · intro fname content cmds hjoin hfil
    unfold statements
    rw [hjoin]
    simp [hfil]

/-- Witness for C6's theorem: retained and dropped candidates, and the
no-statements failure on a comment-only file. -/
theorem filterCmds_spec_witness :
    (0 < "select 1".length ∧ strStartsWith "select 1" "--" = false ∧
        ∃ d ∈ ["select 1 ", "\n"], trimSpace d = "select 1") ∧
    trimSpace " select 2" ∈ filterCmds ["-- x", " select 2"] ∧
    statements "g.sql" "--only comment;\n" = .error (.noStatements "g.sql") :=
  ⟨filterCmds_spec.1 ["select 1 ", "\n"] "select 1" (by decide),
   filterCmds_spec.2.1 ["-- x", " select 2"] " select 2" (by decide)
     (by decide) (by decide),
   filterCmds_spec.2.2 "g.sql" "--only comment;\n" ["--only comment", "\n"]
     (by decide) (by decide)⟩

end Migrate
